import Mathlib

/-!
Verification development for the `stm` task manager (Go, terminal UI).

The definitions below are a shallow embedding of the program's core:
the SQLite data layer (`internal/db`) is modelled as a pure state
(`DBState`) with each Go method becoming a Lean function on it, and the
interactive task-list controller (`internal/ui/views` `TaskListView`)
becomes a structure `TaskView` with each `Update` branch a function from
view (and, where the branch touches the store, database) to a new view,
database and list of issued commands.  Go `int`/`int64` become `Int`
(no overflow is reachable in the modelled paths), Go strings become
`List Char`, SQL timestamps become a logical `Nat` clock, and the
bubbletea text-input widgets are modelled by their string value only.
Database operations are total: the Go error paths that leave the store
untouched are modelled as identity where the source returns early.
-/

namespace STM

/-- ASCII lower-casing, as SQLite's default `LIKE` comparison applies to
the ASCII range. -/
def lowerChar (c : Char) : Char :=
  if 'A' ≤ c ∧ c ≤ 'Z' then Char.ofNat (c.toNat + 32) else c

/-- ASCII whitespace test backing `strings.TrimSpace` (the program only
feeds it keyboard input; the model covers the ASCII space class). -/
def isSpaceB (c : Char) : Bool :=
  c == ' ' || c == '\t' || c == '\n' || c == '\r' || c == '\x0b' || c == '\x0c'

/-- `strings.TrimSpace`: drop whitespace from both ends. -/
def goTrimSpace (l : List Char) : List Char :=
  ((l.dropWhile isSpaceB).reverse.dropWhile isSpaceB).reverse

def isDigitB (c : Char) : Bool := '0' ≤ c && c ≤ '9'

def digitsVal (l : List Char) : Nat :=
  l.foldl (fun a c => a * 10 + (c.toNat - 48)) 0

/-- A non-empty all-digit run parses; anything else is a parse error. -/
def parseDigits (l : List Char) : Option Nat :=
  if !l.isEmpty && l.all isDigitB then some (digitsVal l) else none

/-- `strconv.Atoi` as used by `saveTask`: the error is discarded there,
and Go's `Atoi` yields value `0` alongside a syntax error, so a
malformed field reads as `0`. -/
def goAtoi (l : List Char) : Int :=
  match l with
  | '+' :: rest => match parseDigits rest with | some n => (n : Int) | none => 0
  | '-' :: rest => match parseDigits rest with | some n => -(n : Int) | none => 0
  | _ => match parseDigits l with | some n => (n : Int) | none => 0

/-- `fmt.Sprintf "%d"` for the priority field seeded by `startEditTask`. -/
def intToChars (i : Int) : List Char :=
  if i < 0 then '-' :: Nat.toDigits 10 i.natAbs else Nat.toDigits 10 i.toNat

/-! ## Data model (`internal/models`) -/

/-- `models.Tag`. -/
structure Tag where
  id : Int
  name : List Char
  color : List Char
  tagGroupID : Option Int
  createdAt : Nat
deriving DecidableEq, Repr

/-- `models.Comment`. -/
structure Comment where
  id : Int
  taskID : Int
  content : List Char
  createdAt : Nat
deriving DecidableEq, Repr

/-- A row of the `tasks` table (`models.Task` without the loaded
`Tags`/`Comments`). -/
structure TaskRow where
  id : Int
  projectID : Int
  title : List Char
  description : List Char
  notes : List Char
  priority : Int
  createdAt : Nat
deriving DecidableEq, Repr

/-- `models.Task` as cached by the view: a task row with its loaded tags. -/
structure MTask where
  id : Int
  projectID : Int
  title : List Char
  description : List Char
  notes : List Char
  priority : Int
  createdAt : Nat
  tags : List Tag
deriving DecidableEq, Repr

def dummyMTask : MTask := ⟨0, 0, [], [], [], 0, 0, []⟩

/-- The persistent store: the tables touched by the task-list view, plus
the id/clock counters SQLite supplies (`LastInsertId`,
`CURRENT_TIMESTAMP`). -/
structure DBState where
  tasks : List TaskRow
  tags : List Tag
  taskTags : List (Int × Int)
  comments : List Comment
  nextTaskID : Int
  nextCommentID : Int
  nextTime : Nat
deriving DecidableEq, Repr

/-! ## Database operations (`internal/db`) -/

/-- `SELECT ... FROM tags WHERE id = ?`. -/
def findTag (db : DBState) (tagID : Int) : Option Tag :=
  db.tags.find? (fun t => t.id == tagID)

/-- The group of a tag id, read from the `tags` table. -/
def tagGroupOf (db : DBState) (tagID : Int) : Option Int :=
  (findTag db tagID).bind (fun t => t.tagGroupID)

/-- `tag_id IN (SELECT id FROM tags WHERE tag_group_id = ?)`. -/
def tagInGroup (db : DBState) (tagID g : Int) : Bool :=
  match findTag db tagID with
  | some t => t.tagGroupID == some g
  | none => false

/-- `SELECT ... FROM tasks WHERE id = ?`. -/
def findTask (db : DBState) (taskID : Int) : Option TaskRow :=
  db.tasks.find? (fun t => t.id == taskID)

/-- `DB.GetTaskTags`, reduced to the tag ids (join of `tags` and
`task_tags`, in `tags`-table order). -/
def taskTagIDs (db : DBState) (taskID : Int) : List Int :=
  ((db.tags.filter (fun tg => decide ((taskID, tg.id) ∈ db.taskTags))).map (fun tg => tg.id))

/-- The tag rows of a task, as `ListTasksFiltered` loads them per task. -/
def taskTagsOf (db : DBState) (taskID : Int) : List Tag :=
  db.tags.filter (fun tg => decide ((taskID, tg.id) ∈ db.taskTags))

/-- `DB.CreateTask`: INSERT with fresh id and timestamp; `notes` starts
empty (column default). -/
def createTask (db : DBState) (projectID : Int) (title desc : List Char) (priority : Int) : DBState :=
  { db with
    tasks := db.tasks ++ [⟨db.nextTaskID, projectID, title, desc, [], priority, db.nextTime⟩]
    nextTaskID := db.nextTaskID + 1
    nextTime := db.nextTime + 1 }

/-- `DB.UpdateTask`: UPDATE of the four editable columns on every row
with the given id. -/
def updateTask (db : DBState) (taskID : Int) (title desc notes : List Char) (priority : Int) : DBState :=
  { db with
    tasks := db.tasks.map (fun r =>
      if r.id = taskID then
        { r with title := title, description := desc, notes := notes, priority := priority }
      else r) }

/-- `DB.DeleteTask`: `DELETE FROM tasks WHERE id = ?` (cascades live in
the schema file, outside the modelled statements). -/
def deleteTask (db : DBState) (taskID : Int) : DBState :=
  { db with tasks := db.tasks.filter (fun r => r.id ≠ taskID) }

/-- `DB.AddTagToTask`: look the tag up (a missing tag id is the error
path, leaving the store untouched); if it is grouped, first delete every
`task_tags` row of this task whose tag lies in the same group; then
`INSERT OR IGNORE` the pair. -/
def addTagToTask (db : DBState) (taskID tagID : Int) : DBState :=
  match findTag db tagID with
  | none => db
  | some t =>
    let db1 :=
      match t.tagGroupID with
      | some g =>
        { db with taskTags := db.taskTags.filter (fun p => !(p.1 == taskID && tagInGroup db p.2 g)) }
      | none => db
    if (taskID, tagID) ∈ db1.taskTags then db1
    else { db1 with taskTags := db1.taskTags ++ [(taskID, tagID)] }

/-- `DB.RemoveTagFromTask`. -/
def removeTagFromTask (db : DBState) (taskID tagID : Int) : DBState :=
  { db with taskTags := db.taskTags.filter (fun p => !(p.1 == taskID && p.2 == tagID)) }

/-- `DB.CreateComment`. -/
def createComment (db : DBState) (taskID : Int) (content : List Char) : DBState :=
  { db with
    comments := db.comments ++ [⟨db.nextCommentID, taskID, content, db.nextTime⟩]
    nextCommentID := db.nextCommentID + 1
    nextTime := db.nextTime + 1 }

/-! ## `ListTasksFiltered`: LIKE patterns, filtering and ordering -/

/-- SQLite `LIKE`, restricted to the patterns the program builds
(`%` matches any run, `_` any one character, letters compare
ASCII-case-insensitively).  Structural in the pattern: `%` tries every
suffix of the subject. -/
def likeMatch : List Char → List Char → Bool
  | [], s => s.isEmpty
  | a :: p, s =>
    if a = '%' then s.tails.any (fun t => likeMatch p t)
    else if a = '_' then
      match s with
      | [] => false
      | _ :: s' => likeMatch p s'
    else
      match s with
      | [] => false
      | c :: s' => (lowerChar a == lowerChar c) && likeMatch p s'

/-- The WHERE clause of `DB.ListTasksFiltered` for one candidate row:
project scope, the `LIKE '%'||search||'%'` disjunction on title and
description when the search text is non-empty, the tag join condition
when a tag filter is set, and the `NOT IN` exclusion when an excluded
tag is set. -/
def matchesFilter (db : DBState) (projectID : Int) (search : List Char)
    (tagF exF : Option Int) (t : TaskRow) : Bool :=
  t.projectID == projectID
  && (search.isEmpty
      || likeMatch ('%' :: search ++ ['%']) t.title
      || likeMatch ('%' :: search ++ ['%']) t.description)
  && (match tagF with
      | none => true
      | some tid => decide ((t.id, tid) ∈ db.taskTags))
  && (match exF with
      | none => true
      | some tid => !(decide ((t.id, tid) ∈ db.taskTags)))

/-- `ORDER BY t.priority DESC, t.created_at DESC`: row `a` may come
before row `b`. -/
def taskBefore (a b : TaskRow) : Prop :=
  b.priority < a.priority ∨ (a.priority = b.priority ∧ b.createdAt ≤ a.createdAt)

instance : DecidableRel taskBefore := fun a b =>
  inferInstanceAs (Decidable (_ ∨ _))

instance : IsTotal TaskRow taskBefore :=
  ⟨by intro a b; unfold taskBefore; omega⟩

instance : IsTrans TaskRow taskBefore :=
  ⟨by intro a b c; unfold taskBefore; omega⟩

/-- `DB.ListTasksFiltered`: the rows satisfying the WHERE clause,
ordered by priority descending then creation time descending. -/
def listTasksFiltered (db : DBState) (projectID : Int) (search : List Char)
    (tagF exF : Option Int) : List TaskRow :=
  List.insertionSort taskBefore (db.tasks.filter (matchesFilter db projectID search tagF exF))

/-! ## The task-list view (`TaskListView`) -/

/-- The `FocusArea` sub-focus of the normal mode. -/
inductive FocusArea where
  | backButton
  | searchInput
  | tagDropdown
  | taskList
deriving DecidableEq, Repr

/-- The view-state fields of `TaskListView` (widget models reduced to
their string values; geometry to width/height). -/
structure TaskView where
  projectID : Int
  tasks : List MTask
  tags : List Tag
  width : Int
  height : Int
  focus : FocusArea
  cursor : Int
  scrollY : Int
  searchText : List Char
  selectedTag : Option Int
  tagDropdownOpen : Bool
  tagCursor : Int
  editing : Bool
  editingNew : Bool
  editTitle : List Char
  editDesc : List Char
  editNotes : List Char
  editPriority : List Char
  editFocusIdx : Nat
  editTags : List Int
  editTagCursor : Nat
  assigningTags : Bool
  assignTagCursor : Nat
  assigningTaskID : Int
  viewingTask : Bool
  viewTaskComments : List Comment
  commentInputFocused : Bool
  commentInput : List Char
  confirmingDelete : Bool
  deleteTargetID : Int
  deleteTargetName : List Char
  showingCompleted : Bool
  preCompletedTag : Option Int
  completeTagID : Option Int
  showHelpPopup : Bool
deriving DecidableEq, Repr

/-- The asynchronous commands a handler can issue (`tea.Cmd` values the
view returns: `v.loadTasks`, `v.loadTaskComments`, `tea.Quit`). -/
inductive Cmd where
  | reloadTasks
  | loadComments
  | quitApp
deriving DecidableEq, Repr

/-- Result of one handler invocation: the new view, the store after any
synchronous writes the handler performed, and the issued commands. -/
structure Step where
  view : TaskView
  db : DBState
  cmds : List Cmd
deriving DecidableEq, Repr

/-- The key events the modelled handlers dispatch on (bindings per
`keys.DefaultKeyMap` and the README: Esc = back, Ctrl+S = save, …);
`ch c` is a plain character key reaching a focused text widget. -/
inductive EKey where
  | back
  | ctrlS
  | tab
  | shiftTab
  | enter
  | space
  | up
  | down
  | ch (c : Char)
deriving DecidableEq, Repr

/-- `ensureVisible`'s visible item count: `max(1, max(2, height-10)/2)`
(each list item is two rows). -/
def visibleItems (v : TaskView) : Int :=
  let ah := v.height - 10
  let ah := if ah < 2 then 2 else ah
  let vi := ah / 2
  if vi < 1 then 1 else vi

/-- `TaskListView.ensureVisible`: pull the scroll offset up to the
cursor, or push it down just far enough. -/
def ensureVisible (v : TaskView) : TaskView :=
  let vi := visibleItems v
  if v.cursor < v.scrollY then { v with scrollY := v.cursor }
  else if v.cursor ≥ v.scrollY + vi then { v with scrollY := v.cursor - vi + 1 }
  else v

/-- The `Up` branch of `updateNormal`: move the cursor when the task
list has focus and the cursor is not at the top. -/
def moveUp (v : TaskView) : TaskView :=
  if v.focus = FocusArea.taskList ∧ 0 < v.cursor then
    ensureVisible { v with cursor := v.cursor - 1 }
  else v

/-- The `Down` branch of `updateNormal`. -/
def moveDown (v : TaskView) : TaskView :=
  if v.focus = FocusArea.taskList ∧ v.cursor < (v.tasks.length : Int) - 1 then
    ensureVisible { v with cursor := v.cursor + 1 }
  else v

/-- The `tasksLoadedMsg` branch of `Update`: install the loaded list,
clamp the cursor to it, and close the tag-assignment sub-session when
its target task id no longer occurs. -/
def applyTasksLoaded (v : TaskView) (ts : List MTask) : TaskView :=
  let v1 := { v with tasks := ts }
  let v2 :=
    if v1.cursor ≥ (ts.length : Int) then
      { v1 with cursor := max 0 ((ts.length : Int) - 1) }
    else v1
  if v2.assigningTags ∧ v2.assigningTaskID ≠ 0 ∧ ¬ ts.any (fun t => t.id == v2.assigningTaskID) then
    { v2 with assigningTags := false, assigningTaskID := 0 }
  else v2

/-- The `tea.WindowSizeMsg` branch of `Update`: record the new geometry
(the widget width updates carry no modelled state). -/
def applyWindowSize (v : TaskView) (w h : Int) : TaskView :=
  { v with width := w, height := h }

/-- The `ShowCompleted` branch of `updateNormal`: swap the tag filter
with the completed-tag id (stashing, or restoring, the previous
filter), reset cursor and scroll, and reload. -/
def toggleShowCompleted (v : TaskView) : TaskView × List Cmd :=
  let v1 :=
    if v.showingCompleted then
      { v with showingCompleted := false, selectedTag := v.preCompletedTag, preCompletedTag := none }
    else
      { v with preCompletedTag := v.selectedTag, showingCompleted := true, selectedTag := v.completeTagID }
  ({ v1 with cursor := 0, scrollY := 0 }, [Cmd.reloadTasks])

/-- `updateConfirmDelete`, dispatching on `msg.String()`; the store's
delete is total here (the Go error branch differs only in skipping the
reload). -/
def updateConfirmDelete (v : TaskView) (k : String) (db : DBState) : Step :=
  if k = "y" ∨ k = "Y" then
    ⟨{ v with confirmingDelete := false }, deleteTask db v.deleteTargetID, [Cmd.reloadTasks]⟩
  else if k = "n" ∨ k = "N" ∨ k = "esc" then
    ⟨{ v with confirmingDelete := false }, db, []⟩
  else ⟨v, db, []⟩

/-- `startEditTask`: open an edit session seeded from the given task's
current values and tag-id set. -/
def startEditTask (v : TaskView) (task : MTask) : TaskView :=
  { v with
    editing := true
    editingNew := false
    editFocusIdx := 0
    editTagCursor := 0
    editTags := task.tags.map (fun t => t.id)
    editTitle := task.title
    editDesc := task.description
    editNotes := task.notes
    editPriority := intToChars task.priority }

/-- `startNewTask`: open an empty draft with priority `"0"`. -/
def startNewTask (v : TaskView) : TaskView :=
  { v with
    editing := true
    editingNew := true
    editFocusIdx := 0
    editTagCursor := 0
    editTags := []
    editTitle := []
    editDesc := []
    editNotes := []
    editPriority := ['0'] }

/-- `toggleEditTag`: stage or unstage the tag under the cursor in the
draft's pending set (first occurrence removed, as the Go loop does). -/
def toggleEditTag (v : TaskView) : TaskView :=
  if h : v.editTagCursor < v.tags.length then
    let tagID := (v.tags.get ⟨v.editTagCursor, h⟩).id
    if tagID ∈ v.editTags then { v with editTags := v.editTags.erase tagID }
    else { v with editTags := v.editTags ++ [tagID] }
  else v

/-- The tag diff of `saveTask`: fetch the task's current tag ids, remove
those no longer selected, then add the newly selected ones (both loops
compare against the snapshot taken before the removals). -/
def syncTags (db : DBState) (taskID : Int) (editTags : List Int) : DBState :=
  let cur := taskTagIDs db taskID
  let db1 := cur.foldl (fun d tid => if tid ∈ editTags then d else removeTagFromTask d taskID tid) db
  editTags.foldl (fun d tid => if tid ∈ cur then d else addTagToTask d taskID tid) db1

/-- `TaskListView.saveTask`: an empty trimmed title silently ends the
session; otherwise trim the fields, clamp the parsed priority into
`[0,10]`, create or update the task (the update targeting the cached
row under the cursor at save time), diff the tags, and reload. -/
def saveTask (v : TaskView) (db : DBState) : Step :=
  let title := goTrimSpace v.editTitle
  if title = [] then ⟨{ v with editing := false }, db, []⟩
  else
    let desc := goTrimSpace v.editDesc
    let notes := goTrimSpace v.editNotes
    let p0 := goAtoi v.editPriority
    let p1 := if p0 < 0 then 0 else p0
    let priority := if p1 > 10 then 10 else p1
    if v.editingNew then
      let taskID := db.nextTaskID
      let db1 := createTask db v.projectID title desc priority
      let db2 := if notes ≠ [] then updateTask db1 taskID title desc notes priority else db1
      let db3 := if taskID > 0 then syncTags db2 taskID v.editTags else db2
      ⟨{ v with editing := false }, db3, [Cmd.reloadTasks]⟩
    else if v.tasks.length > 0 then
      let taskID := (v.tasks.getD v.cursor.toNat dummyMTask).id
      let db1 := updateTask db taskID title desc notes priority
      let db2 := if taskID > 0 then syncTags db1 taskID v.editTags else db1
      ⟨{ v with editing := false }, db2, [Cmd.reloadTasks]⟩
    else
      ⟨{ v with editing := false }, db, [Cmd.reloadTasks]⟩

/-- Keystrokes falling through to the focused edit widget append to its
value (the widget's inner cursor is not modelled). -/
def appendToFocusedField (v : TaskView) (cs : List Char) : TaskView :=
  match v.editFocusIdx with
  | 0 => { v with editTitle := v.editTitle ++ cs }
  | 1 => { v with editDesc := v.editDesc ++ cs }
  | 2 => { v with editNotes := v.editNotes ++ cs }
  | 3 => { v with editPriority := v.editPriority ++ cs }
  | _ => v

/-- `updateEditing`: cancel, save, focus cycling, confirm-as-advance on
title/priority, tag toggling, and pass-through of text to the focused
field (Enter reaches the multi-line fields as a newline). -/
def updateEditing (v : TaskView) (k : EKey) (db : DBState) : Step :=
  match k with
  | .back => ⟨{ v with editing := false }, db, []⟩
  | .ctrlS => saveTask v db
  | .tab => ⟨{ v with editFocusIdx := (v.editFocusIdx + 1) % 6 }, db, []⟩
  | .shiftTab => ⟨{ v with editFocusIdx := (v.editFocusIdx + 5) % 6 }, db, []⟩
  | .enter =>
    if v.editFocusIdx = 0 ∨ v.editFocusIdx = 3 then
      ⟨{ v with editFocusIdx := v.editFocusIdx + 1 }, db, []⟩
    else if v.editFocusIdx = 4 then ⟨toggleEditTag v, db, []⟩
    else if v.editFocusIdx = 5 then saveTask v db
    else ⟨appendToFocusedField v ['\n'], db, []⟩
  | .space =>
    if v.editFocusIdx = 4 then ⟨toggleEditTag v, db, []⟩
    else ⟨appendToFocusedField v [' '], db, []⟩
  | .up =>
    if v.editFocusIdx = 4 ∧ 0 < v.editTagCursor then
      ⟨{ v with editTagCursor := v.editTagCursor - 1 }, db, []⟩
    else ⟨v, db, []⟩
  | .down =>
    if v.editFocusIdx = 4 ∧ v.editTagCursor + 1 < v.tags.length then
      ⟨{ v with editTagCursor := v.editTagCursor + 1 }, db, []⟩
    else ⟨v, db, []⟩
  | .ch c => ⟨appendToFocusedField v [c], db, []⟩

/-- `updateAssigningTags`: Esc closes the panel; Enter/Space toggles the
tag under the panel cursor on the task under the list cursor, writing
through immediately and reloading. -/
def updateAssigningTags (v : TaskView) (k : EKey) (db : DBState) : Step :=
  match k with
  | .back => ⟨{ v with assigningTags := false }, db, []⟩
  | .up =>
    if 0 < v.assignTagCursor then ⟨{ v with assignTagCursor := v.assignTagCursor - 1 }, db, []⟩
    else ⟨v, db, []⟩
  | .down =>
    if v.assignTagCursor + 1 < v.tags.length then
      ⟨{ v with assignTagCursor := v.assignTagCursor + 1 }, db, []⟩
    else ⟨v, db, []⟩
  | .enter | .space =>
    if 0 < v.tasks.length ∧ v.assignTagCursor < v.tags.length then
      let task := v.tasks.getD v.cursor.toNat dummyMTask
      let tag := v.tags.getD v.assignTagCursor ⟨0, [], [], none, 0⟩
      if task.tags.any (fun t => t.id == tag.id) then
        ⟨v, removeTagFromTask db task.id tag.id, [Cmd.reloadTasks]⟩
      else
        ⟨v, addTagToTask db task.id tag.id, [Cmd.reloadTasks]⟩
    else ⟨v, db, []⟩
  | _ => ⟨v, db, []⟩

/-- `submitComment`: trimmed-empty content or an empty/overrun list is a
no-op; otherwise persist, clear and unfocus the input, and re-request
the comment list. -/
def submitComment (v : TaskView) (db : DBState) : Step :=
  let content := goTrimSpace v.commentInput
  if content = [] then ⟨v, db, []⟩
  else if v.tasks.length = 0 ∨ (v.tasks.length : Int) ≤ v.cursor then ⟨v, db, []⟩
  else
    let taskID := (v.tasks.getD v.cursor.toNat dummyMTask).id
    ⟨{ v with commentInput := [], commentInputFocused := false },
      createComment db taskID content, [Cmd.loadComments]⟩

/-- `updateViewingTask`: with the comment input focused, Esc unfocuses
and Ctrl+S submits, everything else types; otherwise Esc leaves the
detail view clearing the comment cache, `e`/`d`/`t` hand over to edit,
delete confirmation or tag assignment, and `c`/`a` focus the input. -/
def updateViewingTask (v : TaskView) (k : EKey) (db : DBState) : Step :=
  match k with
  | .back =>
    if v.commentInputFocused then ⟨{ v with commentInputFocused := false }, db, []⟩
    else ⟨{ v with viewingTask := false, viewTaskComments := [] }, db, []⟩
  | .ctrlS =>
    if v.commentInputFocused then submitComment v db else ⟨v, db, []⟩
  | .enter =>
    if v.commentInputFocused then ⟨{ v with commentInput := v.commentInput ++ ['\n'] }, db, []⟩
    else ⟨v, db, []⟩
  | .space =>
    if v.commentInputFocused then ⟨{ v with commentInput := v.commentInput ++ [' '] }, db, []⟩
    else ⟨v, db, []⟩
  | .ch c =>
    if v.commentInputFocused then ⟨{ v with commentInput := v.commentInput ++ [c] }, db, []⟩
    else if c = 'e' then
      ⟨startEditTask { v with viewingTask := false, viewTaskComments := [] }
        (v.tasks.getD v.cursor.toNat dummyMTask), db, []⟩
    else if c = 'd' then
      ⟨{ v with
          confirmingDelete := true
          deleteTargetID := (v.tasks.getD v.cursor.toNat dummyMTask).id
          deleteTargetName := (v.tasks.getD v.cursor.toNat dummyMTask).title }, db, []⟩
    else if c = 't' then
      ⟨{ v with
          viewingTask := false, viewTaskComments := []
          assigningTags := true, assignTagCursor := 0
          assigningTaskID := (v.tasks.getD v.cursor.toNat dummyMTask).id }, db, []⟩
    else if c = 'c' ∨ c = 'a' then ⟨{ v with commentInputFocused := true }, db, []⟩
    else if c = 'q' then ⟨v, db, [Cmd.quitApp]⟩
    else ⟨v, db, []⟩
  | _ => ⟨v, db, []⟩

/-- The filtered query `loadTasks` issues: trimmed search text, the
selected tag, and the cached completed-tag id as exclusion unless the
completed view is active. -/
def loadTasksRows (v : TaskView) (db : DBState) : List TaskRow :=
  listTasksFiltered db v.projectID (goTrimSpace v.searchText) v.selectedTag
    (if v.showingCompleted then none else v.completeTagID)

/-! ## The immediate-write tag toggle path as a transition system -/

/-- One call on the immediate-write path: `DB.AddTagToTask` or
`DB.RemoveTagFromTask` on the fixed task. -/
inductive TagOp where
  | add (tagID : Int)
  | remove (tagID : Int)
deriving DecidableEq, Repr

def applyTagOp (taskID : Int) (db : DBState) : TagOp → DBState
  | .add tagID => addTagToTask db taskID tagID
  | .remove tagID => removeTagFromTask db taskID tagID

def applyTagOps (db : DBState) (taskID : Int) (ops : List TagOp) : DBState :=
  ops.foldl (applyTagOp taskID) db

/-- Mutual exclusion within tag groups, for one task: two assigned tags
sharing a group are the same tag. -/
def groupExclusive (db : DBState) (taskID : Int) : Prop :=
  ∀ t1 t2 g, (taskID, t1) ∈ db.taskTags → (taskID, t2) ∈ db.taskTags →
    tagGroupOf db t1 = some g → tagGroupOf db t2 = some g → t1 = t2

/-- Case-insensitive substring containment on the lowered characters
(the spec's "contains the search string as a case-insensitive
substring"). -/
def containsCI (hay needle : List Char) : Prop :=
  ∃ u w, hay.map lowerChar = u ++ needle.map lowerChar ++ w

/-! ## Scroll/visibility lemmas -/

/-- The window invariant of §4.4: the cursor lies inside the scrolled
window. -/
def scrollInv (v : TaskView) : Prop :=
  v.scrollY ≤ v.cursor ∧ v.cursor < v.scrollY + visibleItems v

theorem one_le_visibleItems (v : TaskView) : 1 ≤ visibleItems v := by
  simp only [visibleItems]
  split <;> split <;> omega

theorem visibleItems_scrollY (v : TaskView) (x : Int) :
    visibleItems { v with scrollY := x } = visibleItems v := rfl

instance (v : TaskView) : Decidable (scrollInv v) :=
  inferInstanceAs (Decidable (_ ∧ _))

theorem scrollInv_ensureVisible (v : TaskView) : scrollInv (ensureVisible v) := by
  have h1 : 1 ≤ visibleItems v := one_le_visibleItems v
  simp only [ensureVisible, scrollInv]
  split_ifs with hA hB
  · simp only [visibleItems_scrollY]; omega
  · simp only [visibleItems_scrollY]; omega
  · omega

/-- A convenient shared default view state for concrete instances. -/
def baseView : TaskView :=
  { projectID := 1, tasks := [], tags := [], width := 80, height := 14
    focus := FocusArea.taskList, cursor := 0, scrollY := 0
    searchText := [], selectedTag := none
    tagDropdownOpen := false, tagCursor := 0
    editing := false, editingNew := false
    editTitle := [], editDesc := [], editNotes := [], editPriority := []
    editFocusIdx := 0, editTags := [], editTagCursor := 0
    assigningTags := false, assignTagCursor := 0, assigningTaskID := 0
    viewingTask := false, viewTaskComments := []
    commentInputFocused := false, commentInput := []
    confirmingDelete := false, deleteTargetID := 0, deleteTargetName := []
    showingCompleted := false, preCompletedTag := none, completeTagID := none
    showHelpPopup := false }

/-- An empty store with counters at their initial SQLite values. -/
def emptyDB : DBState := ⟨[], [], [], [], 1, 1, 0⟩

/-! ## Claim C1 -/

/-- C1 (counterexample): the invariant `scroll ≤ cursor < scroll +
visibleCount` does NOT hold after every task-list reload.  With ten
cached tasks, cursor 5 and scroll 4 (a reachable window at height 14),
a reload that shrinks the list to three tasks clamps the cursor to 2
but leaves the scroll offset at 4, violating `scroll ≤ cursor`. -/
theorem c1_reload_breaks_invariant :
    ¬ scrollInv (applyTasksLoaded
        { baseView with tasks := List.replicate 10 dummyMTask, cursor := 5, scrollY := 4 }
        (List.replicate 3 dummyMTask)) := by
  decide

/-- C1 (amended): the window invariant `scroll ≤ cursor < scroll +
visibleCount` is established by `ensureVisible` and hence holds after
every cursor move that moves the cursor; a task-list reload only clamps
the cursor into the new list (to 0 when it is empty) and leaves the
scroll offset unchanged, and a surface resize changes neither cursor
nor scroll, so after a shrinking reload or a resize the invariant can
be violated until the next cursor move. -/
theorem c1_scroll_cursor_window :
    (∀ v : TaskView, scrollInv (ensureVisible v))
    ∧ (∀ v : TaskView, moveUp v = v ∨ scrollInv (moveUp v))
    ∧ (∀ v : TaskView, moveDown v = v ∨ scrollInv (moveDown v))
    ∧ (∀ (v : TaskView) (ts : List MTask),
        (applyTasksLoaded v ts).scrollY = v.scrollY ∧
        (0 ≤ v.cursor →
          0 ≤ (applyTasksLoaded v ts).cursor ∧
          (ts ≠ [] → (applyTasksLoaded v ts).cursor < (ts.length : Int)) ∧
          (ts = [] → (applyTasksLoaded v ts).cursor = 0)))
    ∧ (∀ (v : TaskView) (w h : Int),
        (applyWindowSize v w h).cursor = v.cursor ∧
        (applyWindowSize v w h).scrollY = v.scrollY) := by
  refine ⟨scrollInv_ensureVisible, ?_, ?_, ?_, ?_⟩
  · intro v
    by_cases h : v.focus = FocusArea.taskList ∧ 0 < v.cursor
    · exact Or.inr (by simpa [moveUp, h] using scrollInv_ensureVisible _)
    · exact Or.inl (by simp [moveUp, h])
  · intro v
    by_cases h : v.focus = FocusArea.taskList ∧ v.cursor < (v.tasks.length : Int) - 1
    · exact Or.inr (by simpa [moveDown, h] using scrollInv_ensureVisible _)
    · exact Or.inl (by simp [moveDown, h])
  · intro v ts
    have hscroll : (applyTasksLoaded v ts).scrollY = v.scrollY := by
      simp only [applyTasksLoaded]
      split <;> split <;> rfl
    have hcur : (applyTasksLoaded v ts).cursor =
        (if v.cursor ≥ (ts.length : Int) then max 0 ((ts.length : Int) - 1) else v.cursor) := by
      simp only [applyTasksLoaded]
      split <;> split <;> rfl
    refine ⟨hscroll, fun hc => ?_⟩
    rw [hcur]
    refine ⟨?_, fun hne => ?_, fun he => ?_⟩
    · split <;> omega
    · have hpos : 0 < ts.length := List.length_pos.mpr hne
      split <;> omega
    · have hlen : ts.length = 0 := by simp [he]
      split <;> omega
  · intro v w h
    exact ⟨rfl, rfl⟩

/-- C1 witness at a concrete state: reload of a two-task list at
cursor 5 clamps the cursor to 1 and keeps scroll, and a resize moves
neither. -/
theorem c1_scroll_cursor_window_witness :
    (0:Int) ≤ (5:Int) ∧
    0 ≤ (applyTasksLoaded { baseView with cursor := 5, scrollY := 4 }
          (List.replicate 2 dummyMTask)).cursor ∧
    (List.replicate 2 dummyMTask ≠ ([] : List MTask) →
      (applyTasksLoaded { baseView with cursor := 5, scrollY := 4 }
          (List.replicate 2 dummyMTask)).cursor < ((List.replicate 2 dummyMTask).length : Int)) ∧
    (List.replicate 2 dummyMTask = ([] : List MTask) →
      (applyTasksLoaded { baseView with cursor := 5, scrollY := 4 }
          (List.replicate 2 dummyMTask)).cursor = 0) := by
  have h := (c1_scroll_cursor_window.2.2.2.1
      { baseView with cursor := 5, scrollY := 4 } (List.replicate 2 dummyMTask)).2
      (by decide)
  exact ⟨by decide, h.1, h.2.1, h.2.2⟩

/-! ## Claim C3 -/

theorem applyTasksLoaded_assign_fields (v : TaskView) (ts : List MTask) :
    ((applyTasksLoaded v ts).assigningTags,
      (applyTasksLoaded v ts).assigningTaskID) =
    (if v.assigningTags ∧ v.assigningTaskID ≠ 0 ∧ ¬ ts.any (fun t => t.id == v.assigningTaskID)
      then (false, 0) else (v.assigningTags, v.assigningTaskID)) := by
  simp only [applyTasksLoaded]
  split <;> split <;> simp_all

/-- C3: after a reload result is applied, an active tag-assignment
sub-session whose captured (non-zero) target task id does not occur in
the newly loaded list is closed — `assigningTags` becomes `false` and
the captured id is cleared to 0 — while a session whose target id does
occur stays open with the id intact. -/
theorem c3_assign_session_reconciled (v : TaskView) (ts : List MTask)
    (hA : v.assigningTags = true) :
    ((v.assigningTaskID ≠ 0 ∧ ∀ t ∈ ts, t.id ≠ v.assigningTaskID) →
      (applyTasksLoaded v ts).assigningTags = false ∧
      (applyTasksLoaded v ts).assigningTaskID = 0)
    ∧ ((∃ t ∈ ts, t.id = v.assigningTaskID) →
      (applyTasksLoaded v ts).assigningTags = true ∧
      (applyTasksLoaded v ts).assigningTaskID = v.assigningTaskID) := by
  have h := applyTasksLoaded_assign_fields v ts
  constructor
  · rintro ⟨hz, habs⟩
    rw [if_pos] at h
    · exact ⟨congrArg Prod.fst h, congrArg Prod.snd h⟩
    · refine ⟨hA, hz, ?_⟩
      simp only [List.any_eq_true, beq_iff_eq, not_exists]
      rintro t ⟨ht, hid⟩
      exact habs t ht hid
  · rintro ⟨t, ht, hid⟩
    rw [if_neg] at h
    · exact ⟨(congrArg Prod.fst h).trans hA, congrArg Prod.snd h⟩
    · rintro ⟨-, -, habs⟩
      exact habs (List.any_eq_true.mpr ⟨t, ht, beq_iff_eq.mpr hid⟩)

/-- C3 witness: with an assignment session open for task 7, loading a
list holding only task 5 closes it; loading a list holding task 7
keeps it open. -/
theorem c3_assign_session_reconciled_witness :
    ((applyTasksLoaded { baseView with assigningTags := true, assigningTaskID := 7 }
        [{ dummyMTask with id := 5 }]).assigningTags = false ∧
      (applyTasksLoaded { baseView with assigningTags := true, assigningTaskID := 7 }
        [{ dummyMTask with id := 5 }]).assigningTaskID = 0)
    ∧ ((applyTasksLoaded { baseView with assigningTags := true, assigningTaskID := 7 }
        [{ dummyMTask with id := 7 }]).assigningTags = true ∧
      (applyTasksLoaded { baseView with assigningTags := true, assigningTaskID := 7 }
        [{ dummyMTask with id := 7 }]).assigningTaskID = 7) := by
  constructor
  · exact (c3_assign_session_reconciled
      { baseView with assigningTags := true, assigningTaskID := 7 }
      [{ dummyMTask with id := 5 }] rfl).1 ⟨by decide, by decide⟩
  · exact (c3_assign_session_reconciled
      { baseView with assigningTags := true, assigningTaskID := 7 }
      [{ dummyMTask with id := 7 }] rfl).2 ⟨{ dummyMTask with id := 7 }, by simp, rfl⟩

/-! ## Claim C4 -/

/-- C4: from a non-completed view, toggling "show completed" stashes the
current tag filter (whatever it is, including none), installs the
cached completed-tag id as the filter, resets cursor and scroll to 0
and reloads; toggling again restores exactly the stashed filter (and
clears the stash), so the round trip preserves the selected tag
filter. -/
theorem c4_show_completed_round_trip (v : TaskView)
    (h : v.showingCompleted = false) :
    (toggleShowCompleted v).1.selectedTag = v.completeTagID
    ∧ (toggleShowCompleted v).1.preCompletedTag = v.selectedTag
    ∧ (toggleShowCompleted v).1.showingCompleted = true
    ∧ (toggleShowCompleted v).1.cursor = 0
    ∧ (toggleShowCompleted v).1.scrollY = 0
    ∧ (toggleShowCompleted v).2 = [Cmd.reloadTasks]
    ∧ (toggleShowCompleted (toggleShowCompleted v).1).1.selectedTag = v.selectedTag
    ∧ (toggleShowCompleted (toggleShowCompleted v).1).1.showingCompleted = false
    ∧ (toggleShowCompleted (toggleShowCompleted v).1).1.preCompletedTag = none
    ∧ (toggleShowCompleted (toggleShowCompleted v).1).2 = [Cmd.reloadTasks] := by
  simp [toggleShowCompleted, h]

/-- C4 witness: a concrete round trip from a view with tag filter 3 and
completed-tag id 9. -/
theorem c4_show_completed_round_trip_witness :
    (toggleShowCompleted
        { baseView with selectedTag := some 3, completeTagID := some 9 }).1.selectedTag = some 9
    ∧ (toggleShowCompleted (toggleShowCompleted
        { baseView with selectedTag := some 3, completeTagID := some 9 }).1).1.selectedTag
      = some 3 := by
  have h := c4_show_completed_round_trip
    { baseView with selectedTag := some 3, completeTagID := some 9 } rfl
  exact ⟨h.1, h.2.2.2.2.2.2.1⟩

/-! ## Claim C5 -/

/-- C5: committing a save whose title trims to the empty string makes no
persistence call at all — the store is returned unchanged, no command
(not even a reload) is issued — and the view merely leaves editing
mode, with every other field (including the discarded draft buffers)
untouched. -/
theorem c5_empty_title_aborts (v : TaskView) (db : DBState)
    (h : goTrimSpace v.editTitle = []) :
    saveTask v db = ⟨{ v with editing := false }, db, []⟩ := by
  simp [saveTask, h]

/-- C5 witness: a whitespace-only title draft over a one-task store. -/
theorem c5_empty_title_aborts_witness :
    goTrimSpace [' ', '\t'] = [] ∧
    saveTask { baseView with editing := true, editTitle := [' ', '\t'] } emptyDB
      = ⟨{ { baseView with editing := true, editTitle := [' ', '\t'] } with editing := false },
          emptyDB, []⟩ :=
  ⟨by decide,
    c5_empty_title_aborts { baseView with editing := true, editTitle := [' ', '\t'] } emptyDB
      (by decide)⟩

/-! ## Claim C7 -/

/-- C7: in the delete-confirmation state an affirmative key (`y`/`Y`)
deletes the captured target id from the store, issues the reload and
returns to normal mode; a negative key (`n`/`N`/`esc`) returns to
normal mode leaving the store untouched; and every other key changes
nothing at all — view, store and commands — so no input passes through
to any other handler. -/
theorem c7_confirm_delete_keys (v : TaskView) (db : DBState) (k : String) :
    ((k = "y" ∨ k = "Y") →
      updateConfirmDelete v k db =
        ⟨{ v with confirmingDelete := false }, deleteTask db v.deleteTargetID, [Cmd.reloadTasks]⟩)
    ∧ ((k = "n" ∨ k = "N" ∨ k = "esc") →
      updateConfirmDelete v k db = ⟨{ v with confirmingDelete := false }, db, []⟩)
    ∧ (¬(k = "y" ∨ k = "Y" ∨ k = "n" ∨ k = "N" ∨ k = "esc") →
      updateConfirmDelete v k db = ⟨v, db, []⟩) := by
  refine ⟨fun h => ?_, fun h => ?_, fun h => ?_⟩
  · simp only [updateConfirmDelete, if_pos h]
  · have hy : ¬(k = "y" ∨ k = "Y") := by
      rintro (rfl | rfl) <;> rcases h with h | h | h <;> simp_all
    simp only [updateConfirmDelete, if_neg hy, if_pos h]
  · push_neg at h
    obtain ⟨h1, h2, h3, h4, h5⟩ := h
    simp only [updateConfirmDelete]
    rw [if_neg (by tauto), if_neg (by tauto)]

/-- C7 witness: concrete checks of all three key classes at a view
confirming deletion of task 2 over a two-task store. -/
theorem c7_confirm_delete_keys_witness :
    (updateConfirmDelete { baseView with confirmingDelete := true, deleteTargetID := 2 } "y"
      { emptyDB with tasks := [⟨1, 1, ['a'], [], [], 0, 0⟩, ⟨2, 1, ['b'], [], [], 0, 1⟩] }
      = ⟨{ { baseView with confirmingDelete := true, deleteTargetID := 2 } with
            confirmingDelete := false },
          deleteTask { emptyDB with tasks := [⟨1, 1, ['a'], [], [], 0, 0⟩, ⟨2, 1, ['b'], [], [], 0, 1⟩] } 2,
          [Cmd.reloadTasks]⟩)
    ∧ (updateConfirmDelete { baseView with confirmingDelete := true, deleteTargetID := 2 } "esc"
        emptyDB
      = ⟨{ { baseView with confirmingDelete := true, deleteTargetID := 2 } with
            confirmingDelete := false }, emptyDB, []⟩)
    ∧ (updateConfirmDelete { baseView with confirmingDelete := true, deleteTargetID := 2 } "x"
        emptyDB
      = ⟨{ baseView with confirmingDelete := true, deleteTargetID := 2 }, emptyDB, []⟩) := by
  refine ⟨?_, ?_, ?_⟩
  · exact (c7_confirm_delete_keys _ _ "y").1 (Or.inl rfl)
  · exact (c7_confirm_delete_keys _ _ "esc").2.1 (Or.inr (Or.inr rfl))
  · exact (c7_confirm_delete_keys _ _ "x").2.2 (by decide)

/-! ## Claim C10 -/

/-- C10: cancelling out of the editing state (Esc) only clears the
editing flag — the store is returned unchanged, so neither the draft
fields nor the staged tag set reach persistence — and leaving the
task-detail view (Esc with the comment input unfocused) clears the
loaded comment cache along with the viewing flag, again leaving the
store untouched. -/
theorem c10_cancel_frames (v : TaskView) (db : DBState) :
    updateEditing v EKey.back db = ⟨{ v with editing := false }, db, []⟩
    ∧ (v.commentInputFocused = false →
      updateViewingTask v EKey.back db
        = ⟨{ v with viewingTask := false, viewTaskComments := [] }, db, []⟩) := by
  refine ⟨rfl, fun h => ?_⟩
  simp [updateViewingTask, h]

/-- C10 witness: a concrete editing session with a staged tag set, and a
concrete detail view with a loaded comment. -/
theorem c10_cancel_frames_witness :
    updateEditing
        { baseView with editing := true, editTitle := ['x'], editTags := [4] } EKey.back emptyDB
      = ⟨{ { baseView with editing := true, editTitle := ['x'], editTags := [4] } with
            editing := false }, emptyDB, []⟩
    ∧ updateViewingTask
        { baseView with viewingTask := true, viewTaskComments := [⟨1, 1, ['h'], 0⟩] }
        EKey.back emptyDB
      = ⟨{ { baseView with viewingTask := true, viewTaskComments := [⟨1, 1, ['h'], 0⟩] } with
            viewingTask := false, viewTaskComments := [] }, emptyDB, []⟩ := by
  refine ⟨?_, ?_⟩
  · exact (c10_cancel_frames
      { baseView with editing := true, editTitle := ['x'], editTags := [4] } emptyDB).1
  · exact (c10_cancel_frames
      { baseView with viewingTask := true, viewTaskComments := [⟨1, 1, ['h'], 0⟩] } emptyDB).2 rfl

/-! ## Claim C2 -/

theorem tagInGroup_eq_true_iff (db : DBState) (x g : Int) :
    tagInGroup db x g = true ↔ tagGroupOf db x = some g := by
  simp only [tagInGroup, tagGroupOf]
  cases findTag db x <;> simp

theorem groupExclusive_remove (db : DBState) (task a b : Int)
    (h : groupExclusive db task) : groupExclusive (removeTagFromTask db a b) task := by
  intro t1 t2 g h1 h2 hg1 hg2
  exact h t1 t2 g (List.mem_filter.mp h1).1 (List.mem_filter.mp h2).1 hg1 hg2

theorem groupExclusive_add (db : DBState) (task tg : Int)
    (h : groupExclusive db task) : groupExclusive (addTagToTask db task tg) task := by
  cases hft : findTag db tg with
  | none => simpa only [addTagToTask, hft] using h
  | some t =>
    have hgrp : tagGroupOf db tg = t.tagGroupID := by
      simp [tagGroupOf, hft]
    cases hgr : t.tagGroupID with
    | none =>
      simp only [addTagToTask, hft, hgr]
      split
      · exact h
      · intro t1 t2 g h1 h2 hg1 hg2
        have hg1' : tagGroupOf db t1 = some g := hg1
        have hg2' : tagGroupOf db t2 = some g := hg2
        rcases List.mem_append.mp h1 with m1 | m1
        · rcases List.mem_append.mp h2 with m2 | m2
          · exact h t1 t2 g m1 m2 hg1' hg2'
          · have : t2 = tg := by simpa using m2
            subst this
            rw [hgrp, hgr] at hg2'
            exact absurd hg2' (by simp)
        · have : t1 = tg := by simpa using m1
          subst this
          rw [hgrp, hgr] at hg1'
          exact absurd hg1' (by simp)
    | some g0 =>
      have hgtg : tagGroupOf db tg = some g0 := by rw [hgrp, hgr]
      have hnotg : ∀ x, (task, x) ∈ db.taskTags.filter
          (fun p => !(p.1 == task && tagInGroup db p.2 g0)) →
          tagGroupOf db x ≠ some g0 := by
        intro x hx hgx
        have hpred := (List.mem_filter.mp hx).2
        have : tagInGroup db x g0 = true := (tagInGroup_eq_true_iff db x g0).mpr hgx
        simp [this] at hpred
      simp only [addTagToTask, hft, hgr]
      split
      · rename_i hmem
        exact absurd hgtg (hnotg tg hmem)
      · intro t1 t2 g h1 h2 hg1 hg2
        have hg1' : tagGroupOf db t1 = some g := hg1
        have hg2' : tagGroupOf db t2 = some g := hg2
        rcases List.mem_append.mp h1 with m1 | m1
        · rcases List.mem_append.mp h2 with m2 | m2
          · exact h t1 t2 g (List.mem_filter.mp m1).1 (List.mem_filter.mp m2).1 hg1' hg2'
          · have ht2 : t2 = tg := by simpa using m2
            have hgg0 : g = g0 := by
              rw [ht2, hgtg] at hg2'
              exact (Option.some.inj hg2').symm
            exact absurd (hgg0 ▸ hg1') (hnotg t1 m1)
        · have ht1 : t1 = tg := by simpa using m1
          have hgg0 : g = g0 := by
            rw [ht1, hgtg] at hg1'
            exact (Option.some.inj hg1').symm
          rcases List.mem_append.mp h2 with m2 | m2
          · exact absurd (hgg0 ▸ hg2') (hnotg t2 m2)
          · have ht2 : t2 = tg := by simpa using m2
            exact ht1.trans ht2.symm

theorem groupExclusive_applyTagOps (db : DBState) (task : Int) (ops : List TagOp)
    (h : groupExclusive db task) : groupExclusive (applyTagOps db task ops) task := by
  induction ops generalizing db with
  | nil => exact h
  | cons op rest ih =>
    cases op with
    | add tg => exact ih (addTagToTask db task tg) (groupExclusive_add db task tg h)
    | remove tg => exact ih (removeTagFromTask db task tg) (groupExclusive_remove db task task tg h)

/-- C2: along every sequence of immediate-write tag toggles
(`AddTagToTask`/`RemoveTagFromTask`) on one task, group mutual
exclusion is preserved — so it holds at every intermediate state, each
prefix being such a sequence; adding a grouped tag first deletes every
other same-group tag of the task; and the tag-assignment panel's toggle
only ever invokes exactly this path on the cursor's task and the
panel's selected tag. -/
theorem c2_group_exclusion (db : DBState) (taskID : Int) (ops : List TagOp)
    (h : groupExclusive db taskID) :
    groupExclusive (applyTagOps db taskID ops) taskID
    ∧ (∀ (d : DBState) (task x y g : Int),
        tagGroupOf d x = some g →
        (task, y) ∈ (addTagToTask d task x).taskTags →
        tagGroupOf d y = some g → y = x)
    ∧ (∀ (w : TaskView) (dw : DBState),
        0 < w.tasks.length → w.assignTagCursor < w.tags.length →
        (updateAssigningTags w EKey.enter dw).db
            = removeTagFromTask dw (w.tasks.getD w.cursor.toNat dummyMTask).id
                (w.tags.getD w.assignTagCursor ⟨0, [], [], none, 0⟩).id
          ∨ (updateAssigningTags w EKey.enter dw).db
            = addTagToTask dw (w.tasks.getD w.cursor.toNat dummyMTask).id
                (w.tags.getD w.assignTagCursor ⟨0, [], [], none, 0⟩).id) := by
  refine ⟨groupExclusive_applyTagOps db taskID ops h, ?_, ?_⟩
  · intro d task x y g hgx hmem hgy
    cases hft : findTag d x with
    | none => simp [tagGroupOf, hft] at hgx
    | some t =>
      have hgrp : t.tagGroupID = some g := by
        simpa [tagGroupOf, hft] using hgx
      have hnotg : ∀ z, (task, z) ∈ d.taskTags.filter
          (fun p => !(p.1 == task && tagInGroup d p.2 g)) →
          tagGroupOf d z ≠ some g := by
        intro z hz hgz
        have hpred := (List.mem_filter.mp hz).2
        have : tagInGroup d z g = true := (tagInGroup_eq_true_iff d z g).mpr hgz
        simp [this] at hpred
      simp only [addTagToTask, hft, hgrp] at hmem
      split at hmem
      · exact absurd hgy (hnotg y hmem)
      · rcases List.mem_append.mp hmem with m | m
        · exact absurd hgy (hnotg y m)
        · simpa using m
  · intro w dw hlen hcur
    simp only [updateAssigningTags, if_pos (And.intro hlen hcur)]
    split
    · exact Or.inl rfl
    · exact Or.inr rfl

/-- C2 witness: on an initially exclusion-satisfying store with two
tags in group 1, the sequence add 1, add 2, remove 2 on task 42
preserves exclusion. -/
theorem c2_group_exclusion_witness :
    groupExclusive
      { emptyDB with tags :=
          [⟨1, ['t','o','d','o'], [], some 1, 0⟩, ⟨2, ['d','o','n','e'], [], some 1, 0⟩] } 42
    ∧ groupExclusive
      (applyTagOps
        { emptyDB with tags :=
            [⟨1, ['t','o','d','o'], [], some 1, 0⟩, ⟨2, ['d','o','n','e'], [], some 1, 0⟩] }
        42 [TagOp.add 1, TagOp.add 2, TagOp.remove 2]) 42 := by
  have hinit : groupExclusive
      { emptyDB with tags :=
          [⟨1, ['t','o','d','o'], [], some 1, 0⟩, ⟨2, ['d','o','n','e'], [], some 1, 0⟩] } 42 :=
    fun t1 t2 g h1 _ _ _ => absurd h1 (List.not_mem_nil _)
  exact ⟨hinit, (c2_group_exclusion _ 42 [TagOp.add 1, TagOp.add 2, TagOp.remove 2] hinit).1⟩

/-! ## Frame lemmas for the tag sync and the task table -/

theorem tasks_removeTagFromTask (db : DBState) (a b : Int) :
    (removeTagFromTask db a b).tasks = db.tasks := rfl

theorem tasks_addTagToTask (db : DBState) (a b : Int) :
    (addTagToTask db a b).tasks = db.tasks := by
  cases hft : findTag db b with
  | none => simp [addTagToTask, hft]
  | some t =>
    cases hgr : t.tagGroupID with
    | none => simp only [addTagToTask, hft, hgr]; split <;> rfl
    | some g => simp only [addTagToTask, hft, hgr]; split <;> rfl

theorem tasks_foldl_remove (xs : List Int) (db : DBState) (tid : Int) (ets : List Int) :
    (xs.foldl (fun d x => if x ∈ ets then d else removeTagFromTask d tid x) db).tasks
      = db.tasks := by
  induction xs generalizing db with
  | nil => rfl
  | cons x xs ih =>
    simp only [List.foldl_cons]
    rw [ih]
    split <;> rfl

theorem tasks_foldl_add (xs : List Int) (db : DBState) (tid : Int) (cur : List Int) :
    (xs.foldl (fun d x => if x ∈ cur then d else addTagToTask d tid x) db).tasks
      = db.tasks := by
  induction xs generalizing db with
  | nil => rfl
  | cons x xs ih =>
    simp only [List.foldl_cons]
    rw [ih]
    split
    · rfl
    · exact tasks_addTagToTask db tid x

theorem tasks_syncTags (db : DBState) (tid : Int) (ets : List Int) :
    (syncTags db tid ets).tasks = db.tasks := by
  unfold syncTags
  rw [tasks_foldl_add, tasks_foldl_remove]

theorem findTask_sync_branch (c : Prop) [Decidable c] (db : DBState) (tid tid' : Int)
    (e : List Int) :
    findTask (if c then syncTags db tid e else db) tid' = findTask db tid' := by
  split
  · unfold findTask
    rw [tasks_syncTags]
  · rfl

theorem mem_taskTags_removeTagFromTask (db : DBState) (a b : Int) (p : Int × Int)
    (hp : p.1 ≠ a) :
    p ∈ (removeTagFromTask db a b).taskTags ↔ p ∈ db.taskTags := by
  simp only [removeTagFromTask, List.mem_filter]
  constructor
  · exact fun h => h.1
  · intro h
    exact ⟨h, by simp [hp]⟩

theorem mem_taskTags_addTagToTask (db : DBState) (a b : Int) (p : Int × Int)
    (hp : p.1 ≠ a) :
    p ∈ (addTagToTask db a b).taskTags ↔ p ∈ db.taskTags := by
  cases hft : findTag db b with
  | none => simp [addTagToTask, hft]
  | some t =>
    cases hgr : t.tagGroupID with
    | none =>
      simp only [addTagToTask, hft, hgr]
      split
      · exact Iff.rfl
      · simp only [List.mem_append, List.mem_singleton]
        constructor
        · rintro (h | h)
          · exact h
          · exact absurd (congrArg Prod.fst h) hp
        · exact fun h => Or.inl h
    | some g =>
      simp only [addTagToTask, hft, hgr]
      split
      · simp only [List.mem_filter]
        constructor
        · exact fun h => h.1
        · intro h
          exact ⟨h, by simp [hp]⟩
      · simp only [List.mem_append, List.mem_singleton, List.mem_filter]
        constructor
        · rintro (h | h)
          · exact h.1
          · exact absurd (congrArg Prod.fst h) hp
        · intro h
          exact Or.inl ⟨h, by simp [hp]⟩

theorem mem_taskTags_foldl_remove (xs : List Int) (db : DBState) (tid : Int)
    (ets : List Int) (p : Int × Int) (hp : p.1 ≠ tid) :
    p ∈ (xs.foldl (fun d x => if x ∈ ets then d else removeTagFromTask d tid x) db).taskTags
      ↔ p ∈ db.taskTags := by
  induction xs generalizing db with
  | nil => exact Iff.rfl
  | cons x xs ih =>
    simp only [List.foldl_cons]
    rw [ih]
    split
    · exact Iff.rfl
    · exact mem_taskTags_removeTagFromTask db tid x p hp

theorem mem_taskTags_foldl_add (xs : List Int) (db : DBState) (tid : Int)
    (cur : List Int) (p : Int × Int) (hp : p.1 ≠ tid) :
    p ∈ (xs.foldl (fun d x => if x ∈ cur then d else addTagToTask d tid x) db).taskTags
      ↔ p ∈ db.taskTags := by
  induction xs generalizing db with
  | nil => exact Iff.rfl
  | cons x xs ih =>
    simp only [List.foldl_cons]
    rw [ih]
    split
    · exact Iff.rfl
    · exact mem_taskTags_addTagToTask db tid x p hp

theorem mem_taskTags_syncTags (db : DBState) (tid : Int) (ets : List Int)
    (p : Int × Int) (hp : p.1 ≠ tid) :
    p ∈ (syncTags db tid ets).taskTags ↔ p ∈ db.taskTags := by
  unfold syncTags
  rw [mem_taskTags_foldl_add _ _ _ _ _ hp, mem_taskTags_foldl_remove _ _ _ _ _ hp]

theorem find_update_list (l : List TaskRow) (tid : Int) (T D N : List Char) (P : Int) :
    (l.map (fun r =>
        if r.id = tid then { r with title := T, description := D, notes := N, priority := P }
        else r)).find? (fun r => r.id == tid)
      = (l.find? (fun r => r.id == tid)).map
          (fun r => { r with title := T, description := D, notes := N, priority := P }) := by
  induction l with
  | nil => rfl
  | cons r rs ih =>
    by_cases hr : r.id = tid
    · rw [List.map_cons, if_pos hr,
        List.find?_cons_of_pos _ (by simp [hr]),
        List.find?_cons_of_pos _ (by simp [hr])]
      rfl
    · rw [List.map_cons, if_neg hr,
        List.find?_cons_of_neg _ (by simp [hr]),
        List.find?_cons_of_neg _ (by simp [hr])]
      exact ih

theorem findTask_updateTask_self (db : DBState) (tid : Int) (T D N : List Char) (P : Int) :
    findTask (updateTask db tid T D N P) tid
      = (findTask db tid).map
          (fun r => { r with title := T, description := D, notes := N, priority := P }) :=
  find_update_list db.tasks tid T D N P

theorem findTask_createTask (db : DBState) (pid : Int) (T D : List Char) (P : Int)
    (hfresh : ∀ r ∈ db.tasks, r.id ≠ db.nextTaskID) :
    findTask (createTask db pid T D P) db.nextTaskID
      = some ⟨db.nextTaskID, pid, T, D, [], P, db.nextTime⟩ := by
  unfold findTask createTask
  rw [List.find?_append]
  have h1 : db.tasks.find? (fun r => r.id == db.nextTaskID) = none :=
    List.find?_eq_none.mpr (fun r hr => by simp [hfresh r hr])
  rw [h1]
  simp [List.find?]

theorem mem_tasks_updateTask (db : DBState) (tid : Int) (T D N : List Char) (P : Int)
    (r : TaskRow) (hr : r ∈ db.tasks) (hne : r.id ≠ tid) :
    r ∈ (updateTask db tid T D N P).tasks := by
  have h := List.mem_map_of_mem
    (f := fun row => if row.id = tid then
        { row with title := T, description := D, notes := N, priority := P } else row) hr
  dsimp only at h
  rw [if_neg hne] at h
  exact h

theorem clamp_eq_max_min (p0 : Int) :
    (if (if p0 < 0 then 0 else p0) > 10 then 10 else if p0 < 0 then 0 else p0)
      = max 0 (min 10 p0) := by
  split_ifs <;> omega

theorem tasks_sync_branch (c : Prop) [Decidable c] (db : DBState) (tid : Int)
    (e : List Int) :
    (if c then syncTags db tid e else db).tasks = db.tasks := by
  split
  · exact tasks_syncTags _ _ _
  · rfl

theorem mem_taskTags_sync_branch (c : Prop) [Decidable c] (db : DBState) (tid : Int)
    (e : List Int) (p : Int × Int) (hp : p.1 ≠ tid) :
    p ∈ (if c then syncTags db tid e else db).taskTags ↔ p ∈ db.taskTags := by
  split
  · exact mem_taskTags_syncTags _ _ _ _ hp
  · exact Iff.rfl

theorem saveTask_db_existing (v : TaskView) (db : DBState)
    (hT : goTrimSpace v.editTitle ≠ []) (hnew : v.editingNew = false)
    (hlen : v.tasks.length > 0) :
    (saveTask v db).db =
      (if (v.tasks.getD v.cursor.toNat dummyMTask).id > 0 then
        syncTags (updateTask db (v.tasks.getD v.cursor.toNat dummyMTask).id
            (goTrimSpace v.editTitle) (goTrimSpace v.editDesc) (goTrimSpace v.editNotes)
            (if (if goAtoi v.editPriority < 0 then 0 else goAtoi v.editPriority) > 10 then 10
             else if goAtoi v.editPriority < 0 then 0 else goAtoi v.editPriority))
          (v.tasks.getD v.cursor.toNat dummyMTask).id v.editTags
      else updateTask db (v.tasks.getD v.cursor.toNat dummyMTask).id
            (goTrimSpace v.editTitle) (goTrimSpace v.editDesc) (goTrimSpace v.editNotes)
            (if (if goAtoi v.editPriority < 0 then 0 else goAtoi v.editPriority) > 10 then 10
             else if goAtoi v.editPriority < 0 then 0 else goAtoi v.editPriority)) := by
  simp only [saveTask]
  rw [if_neg hT, hnew, if_neg (by decide), if_pos hlen]

/-! ## Claim C8 -/

/-- C8: committing a save with a non-empty trimmed title persists the
trimmed draft values — for a new task the created row carries the
trimmed title, description and notes and the parsed priority clamped
into `[0,10]` (as `max 0 (min 10 ·)`), and for an existing task the
targeted row's editable columns become exactly those values. -/
theorem c8_saved_fields (v : TaskView) (db : DBState)
    (hT : goTrimSpace v.editTitle ≠ []) :
    (v.editingNew = true → (∀ r ∈ db.tasks, r.id ≠ db.nextTaskID) →
      findTask (saveTask v db).db db.nextTaskID
        = some ⟨db.nextTaskID, v.projectID, goTrimSpace v.editTitle, goTrimSpace v.editDesc,
            goTrimSpace v.editNotes, max 0 (min 10 (goAtoi v.editPriority)), db.nextTime⟩)
    ∧ (v.editingNew = false → v.tasks.length > 0 →
      ∀ row, findTask db (v.tasks.getD v.cursor.toNat dummyMTask).id = some row →
        findTask (saveTask v db).db (v.tasks.getD v.cursor.toNat dummyMTask).id
          = some { row with
              title := goTrimSpace v.editTitle
              description := goTrimSpace v.editDesc
              notes := goTrimSpace v.editNotes
              priority := max 0 (min 10 (goAtoi v.editPriority)) }) := by
  constructor
  · intro hnew hfresh
    rw [← clamp_eq_max_min]
    simp only [saveTask]
    rw [if_neg hT, hnew, if_pos rfl]
    dsimp only
    rw [findTask_sync_branch]
    by_cases hN : goTrimSpace v.editNotes = []
    · rw [if_neg (not_not_intro hN), hN]
      exact findTask_createTask db v.projectID _ _ _ hfresh
    · rw [if_pos hN, findTask_updateTask_self,
        findTask_createTask db v.projectID _ _ _ hfresh]
      rfl
  · intro hnew hlen row hrow
    rw [← clamp_eq_max_min]
    rw [saveTask_db_existing v db hT hnew hlen]
    rw [findTask_sync_branch, findTask_updateTask_self, hrow]
    rfl

/-- C8 witness: a new-task save with title " New ", description "d ",
notes "n" and priority field "7" creates row 1 with the trimmed values
and priority 7. -/
theorem c8_saved_fields_witness :
    findTask (saveTask
        { baseView with
          editing := true
          editingNew := true
          editTitle := [' ', 'N', 'e', 'w', ' ']
          editDesc := ['d', ' ']
          editNotes := ['n']
          editPriority := ['7'] } emptyDB).db emptyDB.nextTaskID
      = some ⟨emptyDB.nextTaskID, 1,
          goTrimSpace [' ', 'N', 'e', 'w', ' '], goTrimSpace ['d', ' '], goTrimSpace ['n'],
          max 0 (min 10 (goAtoi ['7'])), emptyDB.nextTime⟩ :=
  (c8_saved_fields
    { baseView with
      editing := true
      editingNew := true
      editTitle := [' ', 'N', 'e', 'w', ' ']
      editDesc := ['d', ' ']
      editNotes := ['n']
      editPriority := ['7'] } emptyDB (by decide)).1 rfl (by decide)

/-! ## Claim C9 -/

/-- C9: a save of an existing-task edit session opened (at any earlier
time) via `startEditTask` on an arbitrary task `t` applies the update —
and the subsequent tag diff — to the id of the task sitting at the
current cursor index of the cached list at the moment of save (`t`'s
own id plays no role): that row receives the draft values, every other
row is untouched, and the tag pairs of every other task are untouched;
and if the cached list is empty at save time the store is returned
unchanged and the session simply ends. -/
theorem c9_save_targets_cursor_row (v : TaskView) (t : MTask) (db : DBState)
    (hT : goTrimSpace t.title ≠ []) :
    (v.tasks.length > 0 →
      ∀ row, findTask db (v.tasks.getD v.cursor.toNat dummyMTask).id = some row →
        (findTask (saveTask (startEditTask v t) db).db
            (v.tasks.getD v.cursor.toNat dummyMTask).id
          = some { row with
              title := goTrimSpace t.title
              description := goTrimSpace t.description
              notes := goTrimSpace t.notes
              priority := max 0 (min 10 (goAtoi (intToChars t.priority))) })
        ∧ (∀ r ∈ db.tasks, r.id ≠ (v.tasks.getD v.cursor.toNat dummyMTask).id →
            r ∈ (saveTask (startEditTask v t) db).db.tasks)
        ∧ (∀ p : Int × Int, p.1 ≠ (v.tasks.getD v.cursor.toNat dummyMTask).id →
            (p ∈ (saveTask (startEditTask v t) db).db.taskTags ↔ p ∈ db.taskTags)))
    ∧ (v.tasks = [] →
      saveTask (startEditTask v t) db
        = ⟨{ startEditTask v t with editing := false }, db, [Cmd.reloadTasks]⟩) := by
  have hT' : goTrimSpace (startEditTask v t).editTitle ≠ [] := hT
  have hnew' : (startEditTask v t).editingNew = false := rfl
  constructor
  · intro hlen row hrow
    have hlen' : (startEditTask v t).tasks.length > 0 := hlen
    have hdb := saveTask_db_existing (startEditTask v t) db hT' hnew' hlen'
    have e1 : (startEditTask v t).tasks = v.tasks := rfl
    have e2 : (startEditTask v t).cursor = v.cursor := rfl
    have eT : (startEditTask v t).editTitle = t.title := rfl
    have eD : (startEditTask v t).editDesc = t.description := rfl
    have eN : (startEditTask v t).editNotes = t.notes := rfl
    have eP : (startEditTask v t).editPriority = intToChars t.priority := rfl
    have eTags : (startEditTask v t).editTags = t.tags.map (fun x => x.id) := rfl
    rw [e1, e2, eT, eD, eN, eP, eTags] at hdb
    refine ⟨?_, ?_, ?_⟩
    · rw [← clamp_eq_max_min, hdb, findTask_sync_branch, findTask_updateTask_self, hrow]
      rfl
    · intro r hr hne
      rw [hdb, tasks_sync_branch]
      exact mem_tasks_updateTask db _ _ _ _ _ r hr hne
    · intro p hp
      rw [hdb]
      exact mem_taskTags_sync_branch _ _ _ _ p hp
  · intro hnil
    simp only [saveTask, startEditTask]
    rw [if_neg hT, if_neg (by decide), if_neg (by simp [hnil])]

/-! ## Claim C6: LIKE patterns versus case-insensitive substrings -/

theorem likeMatch_percent_cons (p s : List Char) :
    likeMatch ('%' :: p) s = s.tails.any (fun t => likeMatch p t) := by
  simp [likeMatch]

theorem likeMatch_cons_nil (a : Char) (p : List Char) (ha1 : a ≠ '%') (ha2 : a ≠ '_') :
    likeMatch (a :: p) [] = false := by
  simp [likeMatch, ha1, ha2]

theorem likeMatch_cons_cons (a : Char) (p : List Char) (c : Char) (s : List Char)
    (ha1 : a ≠ '%') (ha2 : a ≠ '_') :
    likeMatch (a :: p) (c :: s) = ((lowerChar a == lowerChar c) && likeMatch p s) := by
  simp [likeMatch, ha1, ha2]

theorem likeMatch_percent_iff (p s : List Char) :
    likeMatch ('%' :: p) s = true ↔ ∃ u w, s = u ++ w ∧ likeMatch p w = true := by
  rw [likeMatch_percent_cons, List.any_eq_true]
  constructor
  · rintro ⟨t, ht, hm⟩
    obtain ⟨u, hu⟩ := (List.mem_tails t s).mp ht
    exact ⟨u, t, hu.symm, hm⟩
  · rintro ⟨u, w, rfl, hm⟩
    exact ⟨w, (List.mem_tails w (u ++ w)).mpr ⟨u, rfl⟩, hm⟩

theorem likeMatch_trailing_percent :
    ∀ (p : List Char), '%' ∉ p → '_' ∉ p → ∀ s,
      (likeMatch (p ++ ['%']) s = true ↔
        ∃ u w, s = u ++ w ∧ p.map lowerChar = u.map lowerChar) := by
  intro p
  induction p with
  | nil =>
    intro _ _ s
    simp only [List.nil_append]
    constructor
    · intro _
      exact ⟨[], s, (List.nil_append s).symm, rfl⟩
    · intro _
      rw [likeMatch_percent_iff]
      exact ⟨s, [], by simp, rfl⟩
  | cons a p ih =>
    intro h1 h2 s
    have ha1 : a ≠ '%' := by rintro rfl; exact h1 (List.mem_cons_self _ _)
    have ha2 : a ≠ '_' := by rintro rfl; exact h2 (List.mem_cons_self _ _)
    have hp1 : '%' ∉ p := fun h => h1 (List.mem_cons_of_mem a h)
    have hp2 : '_' ∉ p := fun h => h2 (List.mem_cons_of_mem a h)
    rw [List.cons_append]
    cases s with
    | nil =>
      rw [likeMatch_cons_nil _ _ ha1 ha2]
      constructor
      · intro h
        exact absurd h (by simp)
      · rintro ⟨u, w, hs, hm⟩
        have hu : u = [] := (List.append_eq_nil.mp hs.symm).1
        rw [hu] at hm
        simp at hm
    | cons c s' =>
      rw [likeMatch_cons_cons _ _ _ _ ha1 ha2]
      simp only [Bool.and_eq_true, beq_iff_eq]
      rw [ih hp1 hp2 s']
      constructor
      · rintro ⟨hlc, u, w, hs, hm⟩
        refine ⟨c :: u, w, ?_, ?_⟩
        · rw [List.cons_append, hs]
        · simp only [List.map_cons]
          rw [hlc, hm]
      · rintro ⟨u, w, hs, hm⟩
        cases u with
        | nil => simp at hm
        | cons d u' =>
          rw [List.cons_append] at hs
          injection hs with hcd hrest
          simp only [List.map_cons, List.cons.injEq] at hm
          obtain ⟨hlc, hm'⟩ := hm
          subst hcd
          exact ⟨hlc, u', w, hrest, hm'⟩

theorem map_lower_split :
    ∀ (l l1 l2 : List Char), l.map lowerChar = l1 ++ l2 →
      ∃ a b, l = a ++ b ∧ a.map lowerChar = l1 ∧ b.map lowerChar = l2 := by
  intro l l1
  induction l1 generalizing l with
  | nil =>
    intro l2 h
    exact ⟨[], l, rfl, rfl, by simpa using h⟩
  | cons x l1 ih =>
    intro l2 h
    cases l with
    | nil => simp at h
    | cons c l' =>
      simp only [List.map_cons, List.cons_append, List.cons.injEq] at h
      obtain ⟨hx, h'⟩ := h
      obtain ⟨a, b, hl, ha, hb⟩ := ih l' l2 h'
      exact ⟨c :: a, b, by rw [List.cons_append, hl],
        by simp only [List.map_cons, ha, hx], hb⟩

/-- The key LIKE lemma: for a wildcard-free search string the pattern
`%search%` matches exactly the subjects containing the search string as
a case-insensitive substring. -/
theorem likeMatch_contains (p : List Char) (h1 : '%' ∉ p) (h2 : '_' ∉ p) (s : List Char) :
    likeMatch ('%' :: (p ++ ['%'])) s = true ↔ containsCI s p := by
  rw [likeMatch_percent_iff]
  constructor
  · rintro ⟨u, w, rfl, hm⟩
    obtain ⟨x, y, hw, hmap⟩ := (likeMatch_trailing_percent p h1 h2 w).mp hm
    refine ⟨u.map lowerChar, y.map lowerChar, ?_⟩
    subst hw
    simp [List.map_append, List.append_assoc, hmap]
  · rintro ⟨U, W, hU⟩
    obtain ⟨u, rest, hs, hu, hrest⟩ :=
      map_lower_split s U (p.map lowerChar ++ W) (by rw [hU, List.append_assoc])
    obtain ⟨x, y, hrest2, hx, hy⟩ := map_lower_split rest (p.map lowerChar) W hrest
    refine ⟨u, rest, hs, ?_⟩
    rw [likeMatch_trailing_percent p h1 h2 rest]
    exact ⟨x, y, hrest2, hx.symm⟩

theorem containsCI_nil (hay : List Char) : containsCI hay [] :=
  ⟨[], hay.map lowerChar, by simp⟩

theorem search_clause_iff (search hay1 hay2 : List Char)
    (h1 : '%' ∉ search) (h2 : '_' ∉ search) :
    (search.isEmpty || likeMatch ('%' :: search ++ ['%']) hay1
      || likeMatch ('%' :: search ++ ['%']) hay2) = true
    ↔ (containsCI hay1 search ∨ containsCI hay2 search) := by
  rw [show ('%' :: search) ++ ['%'] = '%' :: (search ++ ['%']) from List.cons_append _ _ _]
  rw [Bool.or_eq_true, Bool.or_eq_true,
    likeMatch_contains search h1 h2 hay1, likeMatch_contains search h1 h2 hay2]
  constructor
  · rintro ((he | hl) | hl)
    · have : search = [] := List.isEmpty_iff.mp he
      rw [this]
      exact Or.inl (containsCI_nil hay1)
    · exact Or.inl hl
    · exact Or.inr hl
  · rintro (hl | hl)
    · exact Or.inl (Or.inr hl)
    · exact Or.inr hl

/-- C6 (amended): for every project id, current filter state, and
search string free of the SQL LIKE wildcard characters `%` and `_`, the
filtered query returns exactly the tasks of the project whose title or
description contains the search string as a case-insensitive substring,
further restricted by the selected-tag and excluded-tag filters when
present, ordered by priority descending then creation time descending.
(For search strings containing `%` or `_`, the code interprets them as
LIKE wildcards instead of literal characters.) -/
theorem c6_search_filter (db : DBState) (pid : Int) (search : List Char)
    (tagF exF : Option Int) (h1 : '%' ∉ search) (h2 : '_' ∉ search) :
    (∀ t : TaskRow, t ∈ listTasksFiltered db pid search tagF exF ↔
      (t ∈ db.tasks ∧ t.projectID = pid
        ∧ (containsCI t.title search ∨ containsCI t.description search)
        ∧ (∀ tid, tagF = some tid → (t.id, tid) ∈ db.taskTags)
        ∧ (∀ tid, exF = some tid → (t.id, tid) ∉ db.taskTags)))
    ∧ (listTasksFiltered db pid search tagF exF).Pairwise
        (fun a b => b.priority < a.priority ∨
          (a.priority = b.priority ∧ b.createdAt ≤ a.createdAt)) := by
  constructor
  · intro t
    unfold listTasksFiltered
    rw [List.mem_insertionSort, List.mem_filter]
    have hsc := search_clause_iff search t.title t.description h1 h2
    constructor
    · rintro ⟨hmem, hf⟩
      simp only [matchesFilter, Bool.and_eq_true] at hf
      obtain ⟨⟨⟨hA, hB⟩, hC⟩, hD⟩ := hf
      refine ⟨hmem, by simpa using hA, hsc.mp hB, ?_, ?_⟩
      · intro tid htid
        rw [htid] at hC
        simpa using hC
      · intro tid htid
        rw [htid] at hD
        simpa using hD
    · rintro ⟨hmem, hpid, hsearch, htag, hex⟩
      refine ⟨hmem, ?_⟩
      simp only [matchesFilter, Bool.and_eq_true]
      refine ⟨⟨⟨by simpa using hpid, hsc.mpr hsearch⟩, ?_⟩, ?_⟩
      · cases tagF with
        | none => rfl
        | some tid => simpa using htag tid rfl
      · cases exF with
        | none => rfl
        | some tid => simpa using hex tid rfl
  · exact List.sorted_insertionSort taskBefore _

/-- The store for the C6 counterexample: one task titled "azzb". -/
def c6db : DBState :=
  { emptyDB with tasks := [⟨1, 1, ['a','z','z','b'], [], [], 0, 0⟩] }

/-- C6 (counterexample): with the search string "a%b" the query returns
the task titled "azzb" — because `%` acts as a LIKE wildcard — although
neither its title nor its description contains "a%b" as a
(case-insensitive) substring, contradicting the claim as stated. -/
theorem c6_wildcard_counterexample :
    listTasksFiltered c6db 1 ['a','%','b'] none none
        = [⟨1, 1, ['a','z','z','b'], [], [], 0, 0⟩]
    ∧ ¬ containsCI ['a','z','z','b'] ['a','%','b']
    ∧ ¬ containsCI [] ['a','%','b'] := by
  refine ⟨by decide, ?_, ?_⟩
  · rintro ⟨u, w, h⟩
    have hmem : '%' ∈ u ++ List.map lowerChar ['a','%','b'] ++ w :=
      List.mem_append.mpr (Or.inl (List.mem_append.mpr (Or.inr (by decide))))
    rw [← h] at hmem
    exact absurd hmem (by decide)
  · rintro ⟨u, w, h⟩
    have hlen := congrArg List.length h
    simp [List.length_append] at hlen
    omega

/-- The store for the C6 witness: task 1 ("Ab", tagged 5) in project 1,
task 2 ("ab") in project 2. -/
def c6wdb : DBState :=
  { emptyDB with
    tasks := [⟨1, 1, ['A','b'], [], [], 0, 0⟩, ⟨2, 2, ['a','b'], [], [], 0, 0⟩]
    taskTags := [(1, 5)] }

/-- C6 witness: the characterization and the ordering at a concrete
store and the wildcard-free search string "b". -/
theorem c6_search_filter_witness :
    ((⟨1, 1, ['A','b'], [], [], 0, 0⟩ : TaskRow) ∈ listTasksFiltered c6wdb 1 ['b'] none none ↔
      ((⟨1, 1, ['A','b'], [], [], 0, 0⟩ : TaskRow) ∈ c6wdb.tasks
        ∧ (1 : Int) = 1
        ∧ (containsCI ['A','b'] ['b'] ∨ containsCI [] ['b'])
        ∧ (∀ tid, (none : Option Int) = some tid → ((1 : Int), tid) ∈ c6wdb.taskTags)
        ∧ (∀ tid, (none : Option Int) = some tid → ((1 : Int), tid) ∉ c6wdb.taskTags)))
    ∧ (listTasksFiltered c6wdb 1 ['b'] none none).Pairwise
        (fun a b => b.priority < a.priority ∨
          (a.priority = b.priority ∧ b.createdAt ≤ a.createdAt)) := by
  have h := c6_search_filter c6wdb 1 ['b'] none none (by decide) (by decide)
  exact ⟨h.1 ⟨1, 1, ['A','b'], [], [], 0, 0⟩, h.2⟩

/-- Concrete instances for the C9 witness: the cached list holds the
task with id 3 under the cursor, while the edit session was opened from
a task with the different id 99. -/
def c9view : TaskView :=
  { baseView with tasks := [⟨3, 1, ['o'], [], [], 2, 0, []⟩], cursor := 0 }

def c9task : MTask := ⟨99, 1, ['T'], [], [], 4, 0, []⟩

def c9db : DBState :=
  { emptyDB with tasks := [⟨3, 1, ['o'], [], [], 2, 0⟩], nextTaskID := 4 }

/-- C9 witness: an edit session opened from a task with id 99 saves
onto the row with id 3 — the task under the cursor at save time. -/
theorem c9_save_targets_cursor_row_witness :
    findTask (saveTask (startEditTask c9view c9task) c9db).db
        (c9view.tasks.getD c9view.cursor.toNat dummyMTask).id
      = some { (⟨3, 1, ['o'], [], [], 2, 0⟩ : TaskRow) with
          title := goTrimSpace c9task.title
          description := goTrimSpace c9task.description
          notes := goTrimSpace c9task.notes
          priority := max 0 (min 10 (goAtoi (intToChars c9task.priority))) } :=
  ((c9_save_targets_cursor_row c9view c9task c9db
      (by decide)).1 (by decide) ⟨3, 1, ['o'], [], [], 2, 0⟩ (by decide)).1

end STM
